import Mathlib

/-!
Verification development for the tash repository core: the msgbus
publish/subscribe registry (internal/msgbus/msgbus.go) and the task
execution coordinator (internal/task/task.go).

The Go code is shallowly embedded: the registry is an explicit state
value (an association list mirroring the Go map plus the key-mint
counter), registry operations are pure state transformers, and the
concurrent parts (per-subscriber delivery goroutines, the stdout and
stderr pump goroutines of ExecuteTask) are modelled as per-goroutine
event traces combined by an explicit interleaving relation.
-/

namespace Tash

namespace Msgbus

/-- Topic is a string naming a logical channel (msgbus.go: type Topic string). -/
abbrev Topic := String

/-- Modelled from the spec: the key type of the internal uuid package
(github.com/Aj4x/tash/internal/uuid), which msgbus.go imports but whose
source is not present. The spec requires only that every subscription
key is unique for the lifetime of the bus, so a key is modelled as a
natural number minted from a per-bus counter. -/
structure UUID where
  val : Nat
deriving DecidableEq

/-- Identity of a MessageHandler. In the source a handler is a Go
channel; the registry operations depend only on its identity, so it is
modelled by an opaque channel identifier. A nil handler is represented
by `none` at the call sites that may pass one. -/
abbrev HandlerId := Nat

/-- TopicMessage (msgbus.go): a payload tagged with its topic. -/
structure TopicMessage (T : Type) where
  topic : Topic
  message : T
deriving DecidableEq

/-- subscription (msgbus.go): registration of a handler under a topic
with its unique key. -/
structure Subscription where
  topic : Topic
  key : UUID
  handler : HandlerId
deriving DecidableEq

/-- messageBus (msgbus.go): the topic to subscriptions map, modelled as
an association list (the Go map holds at most one entry per topic), plus
the spec-modelled uuid mint counter. -/
structure MessageBus where
  subscribers : List (Topic × List Subscription)
  nextKey : Nat
deriving DecidableEq

/-- NewMessageBus (msgbus.go): empty registry. -/
def NewMessageBus : MessageBus := ⟨[], 0⟩

/-- Map read with ok flag: the Go expression m.subscribers[topic] with
its comma-ok form. -/
def findTopic (subs : List (Topic × List Subscription)) (t : Topic) :
    Option (List Subscription) :=
  match subs with
  | [] => none
  | (t2, ss) :: rest => if t2 = t then some ss else findTopic rest t

/-- The subscriber list Publish iterates over: empty when the topic is
absent (Go map access on a missing key yields the nil slice). -/
def subsOf (m : MessageBus) (t : Topic) : List Subscription :=
  (findTopic m.subscribers t).getD []

/-- Map write m.subscribers[t] = v. -/
def mapSet (subs : List (Topic × List Subscription)) (t : Topic)
    (v : List Subscription) : List (Topic × List Subscription) :=
  match subs with
  | [] => [(t, v)]
  | (t2, ss) :: rest =>
    if t2 = t then (t, v) :: rest else (t2, ss) :: mapSet rest t v

/-- Map delete: the Go statement delete(m.subscribers, topic). -/
def mapDelete (subs : List (Topic × List Subscription)) (t : Topic) :
    List (Topic × List Subscription) :=
  subs.filter (fun e => e.1 != t)

/-- One spawned delivery task: the statement go publish(sub, ctx, cancel)
in Publish (msgbus.go) creates one such task per subscription in the
snapshot, all carrying the same message value. -/
structure Delivery (T : Type) where
  sub : Subscription
  msg : TopicMessage T
deriving DecidableEq

/-- Publish (msgbus.go): reads the topic snapshot under the lock and
spawns one delivery task per subscription; the registry state is never
mutated, and a missing topic returns early spawning nothing. -/
def Publish {T : Type} (m : MessageBus) (msg : TopicMessage T) :
    MessageBus × List (Delivery T) :=
  match findTopic m.subscribers msg.topic with
  | none => (m, [])
  | some subs => (m, subs.map (fun s => ⟨s, msg⟩))

/-- The two Subscribe failure modes of msgbus.go: ErrNilSubChannel and
ErrGeneratingKey. -/
inductive SubscribeErr
| nilSubChannel
| generatingKey
deriving DecidableEq

/-- Modelled from the spec: uuid.NewUUID of the absent internal uuid
package, which mints a key that was never minted before unless key
generation fails; genOk is the oracle for this call succeeding. -/
def NewUUID (counter : Nat) (genOk : Bool) : Option UUID :=
  if genOk then some ⟨counter⟩ else none

/-- Subscribe (msgbus.go): rejects a nil handler, mints a key (failure
is propagated wrapped as ErrGeneratingKey), and only then appends the
new subscription to the topic entry, creating the entry if absent. -/
def Subscribe (m : MessageBus) (topic : Topic) (handler : Option HandlerId)
    (genOk : Bool) : MessageBus × Except SubscribeErr UUID :=
  match handler with
  | none => (m, .error .nilSubChannel)
  | some h =>
    match NewUUID m.nextKey genOk with
    | none => (m, .error .generatingKey)
    | some key =>
      let s : Subscription := ⟨topic, key, h⟩
      (⟨mapSet m.subscribers s.topic (subsOf m s.topic ++ [s]), m.nextKey + 1⟩,
       .ok key)

/-- Index of the first subscription whose Key equals key: the Go loop in
Unsubscribe (msgbus.go) breaks at the first match. -/
def firstKeyIdx (subs : List Subscription) (key : UUID) : Option Nat :=
  match subs with
  | [] => none
  | s :: rest =>
    if s.key = key then some 0 else (firstKeyIdx rest key).map (· + 1)

/-- Unsubscribe (msgbus.go): no-op when the topic is unknown or no
subscription carries the key; deletes the whole topic entry when it held
exactly one subscription, otherwise removes the matched element. -/
def Unsubscribe (m : MessageBus) (topic : Topic) (key : UUID) : MessageBus :=
  match findTopic m.subscribers topic with
  | none => m
  | some subs =>
    match firstKeyIdx subs key with
    | none => m
    | some i =>
      if subs.length = 1 then
        ⟨mapDelete m.subscribers topic, m.nextKey⟩
      else
        ⟨mapSet m.subscribers topic (subs.eraseIdx i), m.nextKey⟩

theorem findTopic_mapDelete (subs : List (Topic × List Subscription))
    (t : Topic) : findTopic (mapDelete subs t) t = none := by
  induction subs with
  | nil => rfl
  | cons e rest ih =>
    obtain ⟨t2, ss⟩ := e
    by_cases h : t2 = t
    · simpa [mapDelete, List.filter_cons, h] using ih
    · simpa [mapDelete, List.filter_cons, h, findTopic] using ih

theorem findTopic_mapSet_self (subs : List (Topic × List Subscription))
    (t : Topic) (v : List Subscription) :
    findTopic (mapSet subs t v) t = some v := by
  induction subs with
  | nil => simp [mapSet, findTopic]
  | cons e rest ih =>
    obtain ⟨t2, ss⟩ := e
    by_cases h : t2 = t
    · simp [mapSet, h, findTopic]
    · simp [mapSet, h, findTopic, ih]

theorem firstKeyIdx_none_of_not_mem (subs : List Subscription) (key : UUID)
    (h : key ∉ subs.map (fun s => s.key)) : firstKeyIdx subs key = none := by
  induction subs with
  | nil => rfl
  | cons s rest ih =>
    simp only [List.map_cons, List.mem_cons, not_or] at h
    have h1 : ¬ s.key = key := fun hk => h.1 hk.symm
    simp [firstKeyIdx, h1, ih h.2]

theorem firstKeyIdx_eraseIdx_none (subs : List Subscription) (key : UUID)
    (i : Nat) (hnd : (subs.map (fun s => s.key)).Nodup)
    (h : firstKeyIdx subs key = some i) :
    firstKeyIdx (subs.eraseIdx i) key = none := by
  induction subs generalizing i with
  | nil => simp [firstKeyIdx] at h
  | cons s rest ih =>
    simp only [List.map_cons, List.nodup_cons] at hnd
    by_cases hk : s.key = key
    · have hi : i = 0 := by simp [firstKeyIdx, hk] at h; omega
      subst hi
      simp only [List.eraseIdx_cons_zero]
      exact firstKeyIdx_none_of_not_mem rest key (hk ▸ hnd.1)
    · simp only [firstKeyIdx, hk, if_false, Option.map_eq_some'] at h
      obtain ⟨j, hj, hij⟩ := h
      subst hij
      simp only [List.eraseIdx_cons_succ]
      simp [firstKeyIdx, hk, ih j hnd.2 hj]

theorem Unsubscribe_topic_absent (m : MessageBus) (t : Topic) (k : UUID)
    (h : findTopic m.subscribers t = none) : Unsubscribe m t k = m := by
  simp [Unsubscribe, h]

theorem Unsubscribe_key_absent (m : MessageBus) (t : Topic) (k : UUID)
    (subs : List Subscription) (hf : findTopic m.subscribers t = some subs)
    (hi : firstKeyIdx subs k = none) : Unsubscribe m t k = m := by
  simp [Unsubscribe, hf, hi]

theorem Unsubscribe_deletes (m : MessageBus) (t : Topic) (k : UUID)
    (subs : List Subscription) (i : Nat)
    (hf : findTopic m.subscribers t = some subs)
    (hi : firstKeyIdx subs k = some i) (hlen : subs.length = 1) :
    Unsubscribe m t k = ⟨mapDelete m.subscribers t, m.nextKey⟩ := by
  simp [Unsubscribe, hf, hi, hlen]

theorem Unsubscribe_erases (m : MessageBus) (t : Topic) (k : UUID)
    (subs : List Subscription) (i : Nat)
    (hf : findTopic m.subscribers t = some subs)
    (hi : firstKeyIdx subs k = some i) (hlen : ¬ subs.length = 1) :
    Unsubscribe m t k = ⟨mapSet m.subscribers t (subs.eraseIdx i), m.nextKey⟩ := by
  simp [Unsubscribe, hf, hi, hlen]

theorem Publish_eq_of_no_subs {T : Type} (m : MessageBus)
    (msg : TopicMessage T) (h : subsOf m msg.topic = []) :
    Publish m msg = (m, []) := by
  unfold Publish
  unfold subsOf at h
  cases hf : findTopic m.subscribers msg.topic with
  | none => rfl
  | some subs => rw [hf] at h; simp at h; simp [h]

/-- C5: a Publish to a topic with zero current subscribers returns
without error and without side effects: the registry state is unchanged
and no delivery task is spawned. -/
theorem publish_zero_subscribers_noop {T : Type} (m : MessageBus)
    (msg : TopicMessage T) (h : subsOf m msg.topic = []) :
    Publish m msg = (m, []) :=
  Publish_eq_of_no_subs m msg h

/-- Witness for C5 at a concrete bus and message. -/
theorem publish_zero_subscribers_noop_witness :
    subsOf NewMessageBus "task.output" = [] ∧
    Publish NewMessageBus (⟨"task.output", 0⟩ : TopicMessage Nat) =
      (NewMessageBus, []) :=
  ⟨by decide, publish_zero_subscribers_noop NewMessageBus _ (by decide)⟩

/-- C6: unsubscribing the last subscriber of a topic deletes the topic
entry itself (the topic becomes absent from the registry map), and a
subsequent Publish to that topic spawns no delivery. -/
theorem unsubscribe_last_removes_topic (m : MessageBus) (t : Topic)
    (s : Subscription) (h : findTopic m.subscribers t = some [s]) :
    findTopic (Unsubscribe m t s.key).subscribers t = none ∧
    ∀ msg : TopicMessage Nat, msg.topic = t →
      Publish (Unsubscribe m t s.key) msg = (Unsubscribe m t s.key, []) := by
  have hu : Unsubscribe m t s.key = ⟨mapDelete m.subscribers t, m.nextKey⟩ :=
    Unsubscribe_deletes m t s.key [s] 0 h (by simp [firstKeyIdx]) (by simp)
  refine ⟨?_, ?_⟩
  · rw [hu]; exact findTopic_mapDelete m.subscribers t
  · intro msg hm
    apply Publish_eq_of_no_subs
    unfold subsOf
    rw [hm, hu]
    rw [findTopic_mapDelete m.subscribers t]
    rfl

/-- Witness for C6 at a concrete one-subscriber bus. -/
theorem unsubscribe_last_removes_topic_witness :
    findTopic (Unsubscribe ⟨[("t", [⟨"t", ⟨0⟩, 7⟩])], 1⟩ "t" ⟨0⟩).subscribers
      "t" = none ∧
    Publish (Unsubscribe ⟨[("t", [⟨"t", ⟨0⟩, 7⟩])], 1⟩ "t" ⟨0⟩)
      (⟨"t", 3⟩ : TopicMessage Nat) =
      (Unsubscribe ⟨[("t", [⟨"t", ⟨0⟩, 7⟩])], 1⟩ "t" ⟨0⟩, []) :=
  ⟨(unsubscribe_last_removes_topic _ "t" ⟨"t", ⟨0⟩, 7⟩ (by decide)).1,
   (unsubscribe_last_removes_topic _ "t" ⟨"t", ⟨0⟩, 7⟩ (by decide)).2 _ rfl⟩

/-- C7: Unsubscribe with an unknown topic or an unknown key is a no-op
(it returns no error by type), and under the bus key-uniqueness
invariant a second Unsubscribe with the same topic and key leaves the
bus exactly as the first one did. -/
theorem unsubscribe_idempotent (m : MessageBus) (t : Topic) (k : UUID) :
    (findTopic m.subscribers t = none → Unsubscribe m t k = m) ∧
    (firstKeyIdx (subsOf m t) k = none → Unsubscribe m t k = m) ∧
    (((subsOf m t).map (fun s => s.key)).Nodup →
      Unsubscribe (Unsubscribe m t k) t k = Unsubscribe m t k) := by
  refine ⟨?_, ?_, ?_⟩
  · intro h; exact Unsubscribe_topic_absent m t k h
  · intro h
    cases hf : findTopic m.subscribers t with
    | none => exact Unsubscribe_topic_absent m t k hf
    | some subs =>
      unfold subsOf at h
      rw [hf] at h
      simp only [Option.getD_some] at h
      exact Unsubscribe_key_absent m t k subs hf h
  · intro hnd
    cases hf : findTopic m.subscribers t with
    | none =>
      simp only [Unsubscribe_topic_absent m t k hf]
    | some subs =>
      unfold subsOf at hnd
      rw [hf] at hnd
      simp only [Option.getD_some] at hnd
      cases hi : firstKeyIdx subs k with
      | none =>
        simp only [Unsubscribe_key_absent m t k subs hf hi]
      | some i =>
        by_cases hlen : subs.length = 1
        · rw [Unsubscribe_deletes m t k subs i hf hi hlen]
          exact Unsubscribe_topic_absent _ t k (findTopic_mapDelete m.subscribers t)
        · rw [Unsubscribe_erases m t k subs i hf hi hlen]
          exact Unsubscribe_key_absent _ t k (subs.eraseIdx i)
            (findTopic_mapSet_self m.subscribers t (subs.eraseIdx i))
            (firstKeyIdx_eraseIdx_none subs k i hnd hi)

/-- Witness for C7: each of the three conjuncts applied at concrete
inputs where its hypothesis holds. -/
theorem unsubscribe_idempotent_witness :
    (Unsubscribe NewMessageBus "absent" ⟨0⟩ = NewMessageBus) ∧
    (Unsubscribe ⟨[("t", [⟨"t", ⟨0⟩, 7⟩])], 1⟩ "t" ⟨5⟩ =
      ⟨[("t", [⟨"t", ⟨0⟩, 7⟩])], 1⟩) ∧
    (Unsubscribe (Unsubscribe ⟨[("t", [⟨"t", ⟨0⟩, 7⟩, ⟨"t", ⟨1⟩, 8⟩])], 2⟩
        "t" ⟨0⟩) "t" ⟨0⟩ =
      Unsubscribe ⟨[("t", [⟨"t", ⟨0⟩, 7⟩, ⟨"t", ⟨1⟩, 8⟩])], 2⟩ "t" ⟨0⟩) :=
  ⟨(unsubscribe_idempotent NewMessageBus "absent" ⟨0⟩).1 (by decide),
   (unsubscribe_idempotent _ "t" ⟨5⟩).2.1 (by decide),
   (unsubscribe_idempotent _ "t" ⟨0⟩).2.2 (by decide)⟩

/-- C10: whenever Subscribe returns an error (nil handler or key
generation failure) the bus state is unchanged: no subscription is
appended and no topic entry is created. -/
theorem subscribe_error_leaves_bus_unchanged (m : MessageBus) (t : Topic)
    (handler : Option HandlerId) (genOk : Bool) (e : SubscribeErr)
    (h : (Subscribe m t handler genOk).2 = .error e) :
    (Subscribe m t handler genOk).1 = m := by
  cases handler with
  | none => rfl
  | some hid =>
    cases genOk with
    | false => rfl
    | true => simp [Subscribe, NewUUID] at h

/-- Witness for C10: both error paths at a concrete bus. -/
theorem subscribe_error_leaves_bus_unchanged_witness :
    ((Subscribe NewMessageBus "t" none true).2 = .error .nilSubChannel ∧
      (Subscribe NewMessageBus "t" none true).1 = NewMessageBus) ∧
    ((Subscribe NewMessageBus "t" (some 7) false).2 = .error .generatingKey ∧
      (Subscribe NewMessageBus "t" (some 7) false).1 = NewMessageBus) :=
  ⟨⟨rfl,
    subscribe_error_leaves_bus_unchanged NewMessageBus "t" none true
      .nilSubChannel rfl⟩,
   ⟨rfl,
    subscribe_error_leaves_bus_unchanged NewMessageBus "t" (some 7) false
      .generatingKey rfl⟩⟩

/-- One bus operation issued by a client, carrying the per-call oracle
inputs (the handler, possibly nil, and whether key generation succeeds). -/
inductive BusOp
| subscribe (topic : Topic) (handler : Option HandlerId) (genOk : Bool)
| unsubscribe (topic : Topic) (key : UUID)
| publish (topic : Topic)

/-- Applies one operation to the bus, returning the new bus state and
the key returned when the operation was a successful Subscribe. -/
def applyOp (m : MessageBus) : BusOp → MessageBus × Option UUID
| .subscribe t h g =>
  match Subscribe m t h g with
  | (m2, .ok k) => (m2, some k)
  | (m2, .error _) => (m2, none)
| .unsubscribe t k => (Unsubscribe m t k, none)
| .publish t => ((Publish m (⟨t, 0⟩ : TopicMessage Nat)).1, none)

/-- Keys returned by the successful Subscribe calls of an operation
sequence, in call order. -/
def runKeys (m : MessageBus) : List BusOp → List UUID
| [] => []
| op :: rest =>
  match applyOp m op with
  | (m2, some k) => k :: runKeys m2 rest
  | (m2, none) => runKeys m2 rest

theorem Publish_fst {T : Type} (m : MessageBus) (msg : TopicMessage T) :
    (Publish m msg).1 = m := by
  unfold Publish
  cases findTopic m.subscribers msg.topic <;> rfl

theorem Unsubscribe_nextKey (m : MessageBus) (t : Topic) (k : UUID) :
    (Unsubscribe m t k).nextKey = m.nextKey := by
  unfold Unsubscribe
  split
  · rfl
  · split
    · rfl
    · split <;> rfl

theorem applyOp_nextKey_le (m : MessageBus) (op : BusOp) :
    m.nextKey ≤ (applyOp m op).1.nextKey := by
  cases op with
  | subscribe t h g =>
    cases h with
    | none => exact le_refl _
    | some hid =>
      cases g with
      | false => exact le_refl _
      | true => simp [applyOp, Subscribe, NewUUID]
  | unsubscribe t k => simpa [applyOp] using le_of_eq (Unsubscribe_nextKey m t k).symm
  | publish t => simp [applyOp, Publish_fst]

theorem applyOp_some_key (m m2 : MessageBus) (op : BusOp) (k : UUID)
    (h : applyOp m op = (m2, some k)) :
    k = ⟨m.nextKey⟩ ∧ m2.nextKey = m.nextKey + 1 := by
  cases op with
  | subscribe t ho g =>
    cases ho with
    | none => simp [applyOp, Subscribe] at h
    | some hid =>
      cases g with
      | false => simp [applyOp, Subscribe, NewUUID] at h
      | true =>
        have he : applyOp m (BusOp.subscribe t (some hid) true) =
            (⟨mapSet m.subscribers t (subsOf m t ++ [⟨t, ⟨m.nextKey⟩, hid⟩]),
              m.nextKey + 1⟩, some ⟨m.nextKey⟩) := rfl
        rw [he] at h
        injection h with ha hb
        injection hb with hb
        exact ⟨hb.symm, by rw [← ha]⟩
  | unsubscribe t k2 => simp [applyOp] at h
  | publish t => simp [applyOp] at h

theorem runKeys_lower (ops : List BusOp) (m : MessageBus) (k : UUID)
    (h : k ∈ runKeys m ops) : m.nextKey ≤ k.val := by
  induction ops generalizing m with
  | nil => simp [runKeys] at h
  | cons op rest ih =>
    unfold runKeys at h
    cases hap : applyOp m op with
    | mk m2 r =>
      rw [hap] at h
      cases r with
      | none =>
        exact le_trans (by simpa [hap] using applyOp_nextKey_le m op) (ih m2 h)
      | some k0 =>
        obtain ⟨hk0, hnk⟩ := applyOp_some_key m m2 op k0 hap
        rcases List.mem_cons.mp h with h1 | h1
        · subst h1; rw [hk0]
        · exact le_trans (Nat.le_of_lt (hnk ▸ Nat.lt_succ_self _)) (ih m2 h1)

theorem runKeys_pairwise_lt (ops : List BusOp) (m : MessageBus) :
    (runKeys m ops).Pairwise (fun a b => a.val < b.val) := by
  induction ops generalizing m with
  | nil => exact List.Pairwise.nil
  | cons op rest ih =>
    unfold runKeys
    cases hap : applyOp m op with
    | mk m2 r =>
      cases r with
      | none => exact ih m2
      | some k0 =>
        obtain ⟨hk0, hnk⟩ := applyOp_some_key m m2 op k0 hap
        refine List.Pairwise.cons ?_ (ih m2)
        intro b hb
        have hlow := runKeys_lower rest m2 b hb
        subst hk0
        have hval : (⟨m.nextKey⟩ : UUID).val = m.nextKey := rfl
        omega

/-- C8: along every sequence of bus operations started from a fresh
bus, the keys returned by distinct successful Subscribe calls are
pairwise different; since the whole operation sequence may include
Unsubscribe calls, a key is never handed out again after the
subscription it identified was removed. -/
theorem subscribe_keys_unique (ops : List BusOp) :
    (runKeys NewMessageBus ops).Pairwise (fun a b => a ≠ b) :=
  (runKeys_pairwise_lt ops NewMessageBus).imp
    (fun hlt heq => absurd (heq ▸ hlt) (lt_irrefl _))

/-- Atomic lock-relevant actions of Publish and of the delivery
goroutines it spawns. -/
inductive BusAction
| lock
| readMap
| spawn (s : Subscription)
| unlock
| chanSend
deriving DecidableEq

/-- The action sequence performed by the Publish caller (msgbus.go):
Lock on entry, the map read, one goroutine spawn per subscription of the
snapshot, and the deferred Unlock, which runs when Publish returns. -/
def publishLockTrace (m : MessageBus) (t : Topic) : List BusAction :=
  .lock :: .readMap ::
    (match findTopic m.subscribers t with
     | none => [.unlock]
     | some subs => subs.map .spawn ++ [.unlock])

/-- The actions of one spawned delivery goroutine (the publish closure
in msgbus.go): it performs the channel send and never touches the
registry lock. -/
def deliveryGoroutineTrace : List BusAction := [.chanSend]

/-- Checks the property the claim asserts of Publish: scanning the
action sequence from the start, the unlock is reached before any
goroutine spawn. -/
def unlockBeforeSpawns : List BusAction → Bool
| [] => true
| a :: rest =>
  match a with
  | .unlock => true
  | .spawn _ => false
  | _ => unlockBeforeSpawns rest

/-- A bus holding one subscriber of topic t. -/
def oneSubBus : MessageBus := ⟨[("t", [⟨"t", ⟨0⟩, 7⟩])], 1⟩

/-- C9 counterexample: with a subscriber present, Publish spawns the
delivery goroutine while the registry lock is still held; the unlock
does not precede the spawn. -/
theorem publish_unlock_not_before_spawn :
    subsOf oneSubBus "t" ≠ [] ∧
    unlockBeforeSpawns (publishLockTrace oneSubBus "t") = false := by decide

theorem count_unlock_map_spawn (subs : List Subscription) :
    (subs.map BusAction.spawn).count BusAction.unlock = 0 := by
  induction subs with
  | nil => rfl
  | cons s rest ih => simpa [List.count_cons] using ih

/-- C9 amended: the lock is held from Publish entry until Publish
returns: the deferred unlock is the final action of the caller's
sequence, it happens exactly once, and whenever the topic has
subscribers it does not precede the spawns; the delivery work itself
runs in the spawned goroutines, whose action trace contains no lock
operation, so a slow consumer never holds the registry lock. -/
theorem publish_lock_spans_spawns (m : MessageBus) (t : Topic) :
    (publishLockTrace m t).getLast? = some .unlock ∧
    (publishLockTrace m t).count .unlock = 1 ∧
    (subsOf m t ≠ [] → unlockBeforeSpawns (publishLockTrace m t) = false) ∧
    BusAction.lock ∉ deliveryGoroutineTrace ∧
    BusAction.unlock ∉ deliveryGoroutineTrace := by
  refine ⟨?_, ?_, ?_, by decide, by decide⟩
  · unfold publishLockTrace
    cases findTopic m.subscribers t with
    | none => rfl
    | some subs =>
      show (BusAction.lock :: BusAction.readMap ::
        (subs.map .spawn ++ [.unlock])).getLast? = some .unlock
      rw [List.getLast?_cons_cons]
      cases subs with
      | nil => rfl
      | cons s rest =>
        show (BusAction.spawn s :: (rest.map .spawn ++ [.unlock])).getLast? =
          some .unlock
        rw [show BusAction.spawn s :: (rest.map .spawn ++ [.unlock]) =
          (BusAction.spawn s :: rest.map .spawn) ++ [.unlock] from rfl]
        exact List.getLast?_concat _
  · unfold publishLockTrace
    cases findTopic m.subscribers t with
    | none => rfl
    | some subs =>
      simp [List.count_cons, List.count_append, count_unlock_map_spawn]
  · intro hne
    cases hf : findTopic m.subscribers t with
    | none => exact absurd (by simp [subsOf, hf]) hne
    | some subs =>
      cases subs with
      | nil => exact absurd (by simp [subsOf, hf]) hne
      | cons s rest => simp [publishLockTrace, hf, unlockBeforeSpawns]

/-- Witness for the amended C9 at a concrete bus with one subscriber. -/
theorem publish_lock_spans_spawns_witness :
    (publishLockTrace oneSubBus "t").getLast? = some .unlock ∧
    unlockBeforeSpawns (publishLockTrace oneSubBus "t") = false :=
  ⟨(publish_lock_spans_spawns oneSubBus "t").1,
   (publish_lock_spans_spawns oneSubBus "t").2.2.1 (by decide)⟩

/-- Time bound of the per-delivery context (msgbus.go: 5*time.Second),
in seconds. -/
def timeoutSecs : Nat := 5

/-- Outcome of one delivery attempt to one subscriber. -/
inductive DeliveryOutcome
| delivered (t : Nat)
| abandoned
| neverCompletes
deriving DecidableEq

/-- Embedding of the spawned publish closure of Publish (msgbus.go).
startDelay is the time, counted from creation of the per-delivery
timeout context, at which the goroutine body first runs; recvAt is the
time at which the subscriber performs a receive on the handler channel,
none if it never does. The select statement has a default branch, so
ctx.Done() is consulted exactly once, on entry; the send executed in the
default branch waits for the receiver with no time bound and the timeout
context is never consulted again. -/
def publishClosure (startDelay : Nat) (recvAt : Option Nat) : DeliveryOutcome :=
  if timeoutSecs ≤ startDelay then .abandoned
  else
    match recvAt with
    | some r => .delivered (max startDelay r)
    | none => .neverCompletes

/-- The per-delivery semantics asserted by the claim (and by the doc
comment of Publish): the message is delivered iff the handler accepts it
within the fixed timeout, and the delivery is abandoned otherwise. -/
def claimedDelivery (recvAt : Option Nat) : DeliveryOutcome :=
  match recvAt with
  | some r => if r ≤ timeoutSecs then .delivered r else .abandoned
  | none => .abandoned

/-- C1: a subscriber that only receives at time 7, past the 5 second
timeout, still gets the message delivered at time 7 because the closure
blocks in the channel send, and a subscriber that never receives blocks
its delivery goroutine forever; under the claimed semantics both
deliveries are abandoned at the timeout. -/
theorem publish_timeout_never_bounds_send :
    publishClosure 0 (some 7) = .delivered 7 ∧
    publishClosure 0 none = .neverCompletes ∧
    claimedDelivery (some 7) = .abandoned ∧
    claimedDelivery none = .abandoned := by decide

end Msgbus

namespace TaskExec

/-- Bus events as published by ExecuteTask (internal/task/task.go); the
constructor encodes the topic. A command event carries whether the
process handle (the exec.Cmd) is present and the running flag;
NewCommandMessage sets running to cmd being non-nil, so the two fields
always agree in published events. -/
inductive Event
| command (handlePresent : Bool) (running : Bool)
| output (line : String)
| outputErr (line : String)
| error (msg : String)
| done
deriving DecidableEq

/-- The command event built by NewCommandMessage (task.go): running is
exactly handle presence. -/
def commandEvent (handlePresent : Bool) : Event :=
  .command handlePresent handlePresent

/-- Outcome of command.Wait() in ExecuteTask: nil error, an
exec.ExitError wrapping a non-zero exit code, or another error. -/
inductive WaitOutcome
| ok
| exitErr (code : Int) (errText : String)
| otherErr (errText : String)
deriving DecidableEq

/-- The observable behaviour of the external process and its pipes
during one ExecuteTask run: possible pipe-attachment and start errors,
the newline-delimited lines each pipe produces, and the Wait outcome. -/
structure ProcBehavior where
  stdoutPipeErr : Option String
  stderrPipeErr : Option String
  startErr : Option String
  stdoutLines : List String
  stderrLines : List String
  waitOutcome : WaitOutcome
deriving DecidableEq

/-- The error text built for a non-zero exit: fmt.Errorf of the literal
"task failed with exit code %d: %w". -/
def exitErrMsg (code : Int) (errText : String) : String :=
  "task failed with exit code " ++ (toString code ++ (": " ++ errText))

/-- The error text built for any other Wait error: fmt.Errorf of the
literal "task failed: %w". -/
def otherErrMsg (errText : String) : String :=
  "task failed: " ++ errText

/-- The publishes made by the ExecuteTask goroutine itself (task.go), in
program order: the command event carrying the new handle first; then, on
a pipe or start failure, the cleared command event followed by the raw
error; otherwise, after Wait returns, the cleared command event followed
by either the wrapped error or the done event. -/
def mainEvents (b : ProcBehavior) : List Event :=
  commandEvent true ::
    match b.stdoutPipeErr with
    | some e => [commandEvent false, .error e]
    | none =>
      match b.stderrPipeErr with
      | some e => [commandEvent false, .error e]
      | none =>
        match b.startErr with
        | some e => [commandEvent false, .error e]
        | none =>
          commandEvent false ::
            match b.waitOutcome with
            | .ok => [.done]
            | .exitErr code t => [.error (exitErrMsg code t)]
            | .otherErr t => [.error (otherErrMsg t)]

/-- Whether the two pipes were attached and the process started, i.e.
whether ExecuteTask reached the point where it spawns the two scanner
goroutines. -/
def spawnOk (b : ProcBehavior) : Bool :=
  b.stdoutPipeErr.isNone && b.stderrPipeErr.isNone && b.startErr.isNone

/-- The publishes of the stdout pump goroutine (task.go): one output
event per scanned line, in the order the process produced them; the
goroutine exists only when the process was started. Because
command.Wait closes the pipe read end as soon as the process exits and
nothing synchronises Wait with the scanner goroutine, a late-scheduled
pump has its read fail before draining the pipe and silently loses the
unread lines: the published lines are a prefix of the lines the process
wrote. k is the number of lines the scanner obtained before the pipe
was closed under it (any k at least the line count means no loss). -/
def stdoutEvents (b : ProcBehavior) (k : Nat) : List Event :=
  if spawnOk b then (b.stdoutLines.take k).map .output else []

/-- The publishes of the stderr pump goroutine (task.go): one outputErr
event per scanned line, in order, subject to the same possible loss of
a suffix when Wait closes the pipe first. -/
def stderrEvents (b : ProcBehavior) (k : Nat) : List Event :=
  if spawnOk b then (b.stderrLines.take k).map .outputErr else []

/-- zs is an interleaving of xs and ys: each step of zs takes the next
element of one of the two, preserving both relative orders. -/
inductive Interleave {α : Type} : List α → List α → List α → Prop
| nil : Interleave [] [] []
| left {x : α} {xs ys zs : List α} :
    Interleave xs ys zs → Interleave (x :: xs) ys (x :: zs)
| right {y : α} {xs ys zs : List α} :
    Interleave xs ys zs → Interleave xs (y :: ys) (y :: zs)

/-- tr is a possible publish trace of one ExecuteTask run for process
behaviour b: an interleaving of the main goroutine's publishes with
those of the two pump goroutines (which are themselves interleaved
arbitrarily, since Go schedules the three goroutines independently),
for some numbers k1, k2 of lines each pump managed to scan before Wait
closed its pipe. -/
def ExecTrace (b : ProcBehavior) (tr : List Event) : Prop :=
  ∃ k1 k2 pumps, Interleave (stdoutEvents b k1) (stderrEvents b k2) pumps ∧
    Interleave (mainEvents b) pumps tr

theorem Interleave.left_nil {α : Type} (ys : List α) :
    Interleave ([] : List α) ys ys := by
  induction ys with
  | nil => exact .nil
  | cons y rest ih => exact .right ih

theorem Interleave.right_nil {α : Type} (xs : List α) :
    Interleave xs ([] : List α) xs := by
  induction xs with
  | nil => exact .nil
  | cons x rest ih => exact .left ih

theorem Interleave.append_left {α : Type} (xs ys : List α) :
    Interleave xs ys (ys ++ xs) := by
  induction ys with
  | nil => simpa using Interleave.right_nil xs
  | cons y rest ih => exact .right ih

theorem Interleave.eq_of_left_nil {α : Type} {ys zs : List α}
    (h : Interleave ([] : List α) ys zs) : ys = zs := by
  generalize hx : ([] : List α) = xs at h
  induction h with
  | nil => rfl
  | left h ih => exact absurd hx (by simp)
  | right h ih => simpa using ih hx

theorem Interleave.eq_of_right_nil {α : Type} {xs zs : List α}
    (h : Interleave xs ([] : List α) zs) : xs = zs := by
  generalize hy : ([] : List α) = ys at h
  induction h with
  | nil => rfl
  | left h ih => simpa using ih hy
  | right h ih => exact absurd hy (by simp)

theorem Interleave.filter {α : Type} (p : α → Bool) {xs ys zs : List α}
    (h : Interleave xs ys zs) :
    Interleave (xs.filter p) (ys.filter p) (zs.filter p) := by
  induction h with
  | nil => exact .nil
  | @left x xs ys zs h ih =>
    by_cases hp : p x = true
    · simpa [List.filter_cons, hp] using Interleave.left ih
    · simpa [List.filter_cons, hp] using ih
  | @right y xs ys zs h ih =>
    by_cases hp : p y = true
    · simpa [List.filter_cons, hp] using Interleave.right ih
    · simpa [List.filter_cons, hp] using ih

def isOutput : Event → Bool
| .output _ => true
| _ => false

def isDone : Event → Bool
| .done => true
| _ => false

def isError : Event → Bool
| .error _ => true
| _ => false

/-- A terminal outcome event: the done event or an error event. -/
def isTerminal (e : Event) : Bool := isError e || isDone e

/-- The handle-invalidation event: a command event with nil handle and
running=false. -/
def isCleared : Event → Bool
| .command false false => true
| _ => false

theorem filter_map_nil {α β : Type} (p : β → Bool) (f : α → β) (l : List α)
    (h : ∀ a, p (f a) = false) : (l.map f).filter p = [] := by
  induction l with
  | nil => rfl
  | cons a rest ih => simp [List.filter_cons, h a, ih]

theorem filter_map_all {α β : Type} (p : β → Bool) (f : α → β) (l : List α)
    (h : ∀ a, p (f a) = true) : (l.map f).filter p = l.map f := by
  induction l with
  | nil => rfl
  | cons a rest ih => simp [List.filter_cons, h a, ih]

theorem stdoutEvents_filter_nil (b : ProcBehavior) (k : Nat) (p : Event → Bool)
    (h : ∀ l, p (.output l) = false) : (stdoutEvents b k).filter p = [] := by
  unfold stdoutEvents
  split
  · exact filter_map_nil p _ (b.stdoutLines.take k) h
  · rfl

theorem stderrEvents_filter_nil (b : ProcBehavior) (k : Nat) (p : Event → Bool)
    (h : ∀ l, p (.outputErr l) = false) : (stderrEvents b k).filter p = [] := by
  unfold stderrEvents
  split
  · exact filter_map_nil p _ (b.stderrLines.take k) h
  · rfl

/-- When neither pump goroutine can contribute an event satisfying p,
the p-filtered trace is the p-filtered main-goroutine trace, whatever
the schedule and whatever line loss occurred. -/
theorem execTrace_filter_eq_main (b : ProcBehavior) (tr : List Event)
    (p : Event → Bool) (h : ExecTrace b tr)
    (h1 : ∀ k, (stdoutEvents b k).filter p = [])
    (h2 : ∀ k, (stderrEvents b k).filter p = []) :
    tr.filter p = (mainEvents b).filter p := by
  obtain ⟨k1, k2, pumps, hp, hm⟩ := h
  have hpf := hp.filter p
  rw [h1 k1, h2 k2] at hpf
  have hpe : pumps.filter p = [] := (hpf.eq_of_left_nil).symm
  have hmf := hm.filter p
  rw [hpe] at hmf
  exact (hmf.eq_of_right_nil).symm

theorem mainEvents_filter_clearedTerminal (b : ProcBehavior) :
    ∃ t, isTerminal t = true ∧
      (mainEvents b).filter (fun e => isCleared e || isTerminal e) =
        [Event.command false false, t] := by
  obtain ⟨so, se, st, ol, el, w⟩ := b
  cases so with
  | some e =>
    exact ⟨.error e, rfl, by
      simp [mainEvents, commandEvent, isCleared, isTerminal, isError, isDone,
        List.filter_cons]⟩
  | none =>
    cases se with
    | some e =>
      exact ⟨.error e, rfl, by
        simp [mainEvents, commandEvent, isCleared, isTerminal, isError, isDone,
          List.filter_cons]⟩
    | none =>
      cases st with
      | some e =>
        exact ⟨.error e, rfl, by
          simp [mainEvents, commandEvent, isCleared, isTerminal, isError,
            isDone, List.filter_cons]⟩
      | none =>
        cases w with
        | ok =>
          exact ⟨.done, rfl, by
            simp [mainEvents, commandEvent, isCleared, isTerminal, isError,
              isDone, List.filter_cons]⟩
        | exitErr c t2 =>
          exact ⟨.error (exitErrMsg c t2), rfl, by
            simp [mainEvents, commandEvent, isCleared, isTerminal, isError,
              isDone, List.filter_cons]⟩
        | otherErr t2 =>
          exact ⟨.error (otherErrMsg t2), rfl, by
            simp [mainEvents, commandEvent, isCleared, isTerminal, isError,
              isDone, List.filter_cons]⟩

/-- C2: in every publish trace of every ExecuteTask run, under every
schedule and on every path (spawn failure included), the subsequence of
handle-invalidation and terminal events is exactly the cleared command
event (nil handle, running=false) followed by one terminal outcome
event: the coordinator publishes command-cleared strictly before the
terminal outcome. -/
theorem command_cleared_before_terminal (b : ProcBehavior) (tr : List Event)
    (h : ExecTrace b tr) :
    ∃ t, isTerminal t = true ∧
      tr.filter (fun e => isCleared e || isTerminal e) =
        [Event.command false false, t] := by
  obtain ⟨t, ht, hm⟩ := mainEvents_filter_clearedTerminal b
  refine ⟨t, ht, ?_⟩
  rw [execTrace_filter_eq_main b tr _ h
    (fun k => stdoutEvents_filter_nil b k _ (fun l => rfl))
    (fun k => stderrEvents_filter_nil b k _ (fun l => rfl))]
  exact hm

/-- Witness for C2 at the run of a cleanly exiting silent command,
scheduled with the main goroutine alone publishing. -/
theorem command_cleared_before_terminal_witness :
    ∃ t, isTerminal t = true ∧
      (mainEvents ⟨none, none, none, [], [], .ok⟩).filter
        (fun e => isCleared e || isTerminal e) =
        [Event.command false false, t] :=
  command_cleared_before_terminal ⟨none, none, none, [], [], .ok⟩ _
    ⟨0, 0, [], .nil, Interleave.right_nil _⟩

/-- C3: when the process exits with a non-zero code, every publish trace
of the run contains zero done events and exactly one error event, whose
message embeds the exit code (it is the wrapped text "task failed with
exit code %d: %w"). -/
theorem nonzero_exit_no_done_one_error (b : ProcBehavior) (tr : List Event)
    (code : Int) (errText : String)
    (h1 : b.stdoutPipeErr = none) (h2 : b.stderrPipeErr = none)
    (h3 : b.startErr = none) (h4 : b.waitOutcome = .exitErr code errText)
    (h : ExecTrace b tr) :
    tr.filter isDone = [] ∧
    tr.filter isError = [.error (exitErrMsg code errText)] ∧
    ∃ pre suf, exitErrMsg code errText = pre ++ (toString code ++ suf) := by
  obtain ⟨so, se, st, ol, el, w⟩ := b
  simp only at h1 h2 h3 h4
  subst h1; subst h2; subst h3; subst h4
  refine ⟨?_, ?_, ⟨"task failed with exit code ", ": " ++ errText, rfl⟩⟩
  · rw [execTrace_filter_eq_main _ tr isDone h
      (fun k => stdoutEvents_filter_nil _ k _ (fun l => rfl))
      (fun k => stderrEvents_filter_nil _ k _ (fun l => rfl))]
    simp [mainEvents, commandEvent, isDone, List.filter_cons]
  · rw [execTrace_filter_eq_main _ tr isError h
      (fun k => stdoutEvents_filter_nil _ k _ (fun l => rfl))
      (fun k => stderrEvents_filter_nil _ k _ (fun l => rfl))]
    simp [mainEvents, commandEvent, isError, List.filter_cons]

/-- Witness for C3 at a run exiting with code 2, scheduled with the main
goroutine alone publishing. -/
theorem nonzero_exit_no_done_one_error_witness :
    (mainEvents ⟨none, none, none, [], [], .exitErr 2 "exit status 2"⟩).filter
      isDone = [] ∧
    (mainEvents ⟨none, none, none, [], [], .exitErr 2 "exit status 2"⟩).filter
      isError = [.error (exitErrMsg 2 "exit status 2")] ∧
    ∃ pre suf, exitErrMsg 2 "exit status 2" = pre ++ (toString (2 : Int) ++ suf) :=
  nonzero_exit_no_done_one_error ⟨none, none, none, [], [], .exitErr 2 "exit status 2"⟩
    _ 2 "exit status 2" rfl rfl rfl rfl ⟨0, 0, [], .nil, Interleave.right_nil _⟩

/-- The process behaviour of a command printing exactly three stdout
lines and exiting cleanly. -/
def threeLineB : ProcBehavior := ⟨none, none, none, ["l1", "l2", "l3"], [], .ok⟩

/-- A legal schedule of that run in which the stdout pump goroutine
scanned all three lines but publishes them only after the coordinator
goroutine has already returned from Wait and published the done event. -/
def latePumpTrace : List Event :=
  [commandEvent true, commandEvent false, .done,
   .output "l1", .output "l2", .output "l3"]

/-- A legal schedule of that run in which the stdout pump goroutine is
scheduled only after Wait has closed its pipe, losing all three lines:
no output event is ever published. -/
def lostLinesTrace : List Event :=
  [commandEvent true, commandEvent false, .done]

/-- Checks the ordering the claim asserts: no output event occurs after
a done event. -/
def noOutputAfterDone : List Event → Bool
| [] => true
| e :: rest =>
  if isDone e then rest.all (fun x => !isOutput x) else noOutputAfterDone rest

/-- C4 counterexample: for the three-line cleanly-exiting run there are
legal schedules (nothing synchronises the stdout pump goroutine with
command.Wait) whose publish trace has all three output events after the
done event, and others in which Wait closes the pipe before the pump
drained it, so fewer than three output events are ever published. -/
theorem outputs_after_done_schedule :
    (ExecTrace threeLineB latePumpTrace ∧
      noOutputAfterDone latePumpTrace = false) ∧
    (ExecTrace threeLineB lostLinesTrace ∧
      lostLinesTrace.filter isOutput = []) := by
  refine ⟨⟨?_, by decide⟩, ?_, by decide⟩
  · refine ⟨3, 0, [.output "l1", .output "l2", .output "l3"],
      Interleave.right_nil _, ?_⟩
    exact .left (.left (.left (Interleave.left_nil _)))
  · exact ⟨0, 0, [], .nil, Interleave.right_nil _⟩

theorem noOutputAfterDone_outputs_first (ls : List String) :
    noOutputAfterDone (ls.map .output ++ [commandEvent false, .done]) = true := by
  induction ls with
  | nil => rfl
  | cons l rest ih => simpa [noOutputAfterDone, isDone] using ih

/-- C4 amended: for a run whose process prints exactly three stdout
lines and exits cleanly, every publish trace carries as its output
events a prefix of those three lines in program order (a suffix can be
lost when Wait closes the pipe under a late-scheduled pump), exactly one
done event and no error event; and the intended schedule, in which the
pump drains the pipe first, yields a trace with all three output events
in program order and none of them after the done event. -/
theorem three_lines_done_no_error (b : ProcBehavior) (tr : List Event)
    (ls : List String) (h0 : b.stdoutLines = ls) (hlen : ls.length = 3)
    (h1 : b.stdoutPipeErr = none) (h2 : b.stderrPipeErr = none)
    (h3 : b.startErr = none) (h4 : b.waitOutcome = .ok)
    (h : ExecTrace b tr) :
    (∃ k, tr.filter isOutput = (ls.take k).map .output) ∧
    tr.filter isDone = [.done] ∧
    tr.filter isError = [] ∧
    ∃ tr2, ExecTrace b tr2 ∧ tr2.filter isOutput = ls.map .output ∧
      noOutputAfterDone tr2 = true := by
  obtain ⟨so, se, st, ol, el, w⟩ := b
  simp only at h0 h1 h2 h3 h4
  subst h0; subst h1; subst h2; subst h3; subst h4
  refine ⟨?_, ?_, ?_, ?_⟩
  · obtain ⟨k1, k2, pumps, hp, hm⟩ := h
    refine ⟨k1, ?_⟩
    have hmf := hm.filter isOutput
    rw [show (mainEvents ⟨none, none, none, ol, el, .ok⟩).filter isOutput = []
      from by simp [mainEvents, commandEvent, isOutput, List.filter_cons]] at hmf
    have htr : pumps.filter isOutput = tr.filter isOutput :=
      hmf.eq_of_left_nil
    have hpf := hp.filter isOutput
    rw [show (stderrEvents ⟨none, none, none, ol, el, .ok⟩ k2).filter isOutput = []
      from stderrEvents_filter_nil _ k2 _ (fun l => rfl)] at hpf
    have hsd : (stdoutEvents ⟨none, none, none, ol, el, .ok⟩ k1).filter isOutput
        = pumps.filter isOutput := hpf.eq_of_right_nil
    rw [← htr, ← hsd]
    show ((if spawnOk ⟨none, none, none, ol, el, .ok⟩ then (ol.take k1).map .output
      else []).filter isOutput) = (ol.take k1).map .output
    rw [if_pos (show spawnOk ⟨none, none, none, ol, el, .ok⟩ = true from rfl)]
    exact filter_map_all isOutput _ (ol.take k1) (fun a => rfl)
  · rw [execTrace_filter_eq_main _ tr isDone h
      (fun k => stdoutEvents_filter_nil _ k _ (fun l => rfl))
      (fun k => stderrEvents_filter_nil _ k _ (fun l => rfl))]
    simp [mainEvents, commandEvent, isDone, List.filter_cons]
  · rw [execTrace_filter_eq_main _ tr isError h
      (fun k => stdoutEvents_filter_nil _ k _ (fun l => rfl))
      (fun k => stderrEvents_filter_nil _ k _ (fun l => rfl))]
    simp [mainEvents, commandEvent, isError, List.filter_cons]
  · refine ⟨commandEvent true ::
      (ol.map Event.output ++ [commandEvent false, .done]),
      ⟨ol.length, 0, ol.map Event.output, ?_, ?_⟩, ?_, ?_⟩
    · have hso : stdoutEvents ⟨none, none, none, ol, el, .ok⟩ ol.length
          = ol.map Event.output := by
        unfold stdoutEvents
        rw [if_pos (show spawnOk ⟨none, none, none, ol, el, .ok⟩ = true from rfl),
          List.take_length]
      have hse : stderrEvents ⟨none, none, none, ol, el, .ok⟩ 0 = [] := by
        unfold stderrEvents
        rw [if_pos (show spawnOk ⟨none, none, none, ol, el, .ok⟩ = true from rfl)]
        rfl
      rw [hso, hse]
      exact Interleave.right_nil _
    · exact .left (Interleave.append_left [commandEvent false, .done] _)
    · rw [show (commandEvent true :: (ol.map Event.output ++
        [commandEvent false, Event.done])).filter isOutput =
        (ol.map Event.output).filter isOutput from by
          simp [List.filter_cons, List.filter_append, isOutput, commandEvent]]
      exact filter_map_all isOutput Event.output ol (fun a => rfl)
    · simpa [noOutputAfterDone, isDone, commandEvent] using
        noOutputAfterDone_outputs_first ol

/-- Witness for the amended C4 at the three-line run under the
late-pump schedule. -/
theorem three_lines_done_no_error_witness :
    (∃ k, latePumpTrace.filter isOutput =
      ((["l1", "l2", "l3"].take k).map .output : List Event)) ∧
    latePumpTrace.filter isDone = [.done] ∧
    latePumpTrace.filter isError = [] ∧
    ∃ tr2, ExecTrace threeLineB tr2 ∧
      tr2.filter isOutput = ["l1", "l2", "l3"].map .output ∧
      noOutputAfterDone tr2 = true :=
  three_lines_done_no_error threeLineB latePumpTrace ["l1", "l2", "l3"]
    rfl rfl rfl rfl rfl rfl
    ⟨3, 0, [.output "l1", .output "l2", .output "l3"],
     Interleave.right_nil _,
     .left (.left (.left (Interleave.left_nil _)))⟩

end TaskExec

end Tash
